import Mathlib

/-!
Verification of the discovery-diff-reload loop of `docker-discover`
(`main.py`): the etcd-backed topology builder `get_services`, the
change-detection comparison driving the poll loop in `main`, the reload
executor `restart_haproxy`, and the per-tick state transition of the loop.

The embedding keeps the Python semantics of the source:
* registry entries are raw key/value string pairs;
* a key is processed as `key[1:]`, skipped when it contains fewer than two
  slashes, and otherwise split from the right into its last two segments
  (Python `rsplit("/", 2)`);
* the per-service record is a pair of an optional `port` string and a
  *list* of `(name, addr)` backends, to which entries are appended;
* the service dictionary preserves insertion order (Python dict), and the
  final filter drops every service whose port was never set;
* dictionary comparison (`services != current_services`) is Python dict
  equality: equal key sets with equal values per key, where the backend
  lists compare element-wise in order.
-/

namespace DockerDiscover

/-- A raw registry record: slash-delimited key path and opaque value. -/
structure Entry where
  key : String
  value : String
deriving DecidableEq

/-- Per-service record built by `get_services`: the advertised `port`
(`none` until a `.../port` entry is seen) and the backend list in append
order, as in the Python `defaultdict(lambda: {'port': None, 'backends': []})`. -/
structure Svc where
  port : Option String
  backends : List (String × String)
deriving DecidableEq

/-- The service dictionary, as an insertion-ordered association list
(Python dicts preserve insertion order). -/
abbrev Services := List (String × Svc)

/-- Number of occurrences of a character, Python `str.count`. -/
def countChar (c : Char) : List Char → Nat
  | [] => 0
  | d :: rest => (if d = c then 1 else 0) + countChar c rest

/-- Split a character list at every slash, Python `str.split("/")`:
the accumulator holds the current segment reversed. -/
def segsAux : List Char → List Char → List (List Char)
  | [], acc => [acc.reverse]
  | d :: rest, acc =>
    if d = '/' then acc.reverse :: segsAux rest [] else segsAux rest (d :: acc)

/-- Key parsing done by the loop body of `get_services`:
`i.key[1:].count("/") < 2` skips the entry, otherwise
`ignore, service, container = i.key[1:].rsplit("/", 2)` keeps the last two
path segments. -/
def parseKey (key : String) : Option (String × String) :=
  if countChar '/' (key.toList.drop 1) < 2 then
    none
  else
    match (segsAux (key.toList.drop 1) []).reverse with
    | container :: service :: _ => some (String.mk service, String.mk container)
    | _ => none

/-- The `defaultdict` default: `{'port': None, 'backends': []}`. -/
def emptySvc : Svc := ⟨none, []⟩

/-- `services[service]` access followed by a mutation: updates the binding
in place when present, otherwise inserts the default at the end (Python
dict insertion order) and mutates it. -/
def updateSvc : Services → String → (Svc → Svc) → Services
  | [], name, f => [(name, f emptySvc)]
  | (n, s) :: rest, name, f =>
    if n = name then (n, f s) :: rest else (n, s) :: updateSvc rest name f

/-- One iteration of the `for i in backends.children` loop of
`get_services`. -/
def applyEntry (svcs : Services) (e : Entry) : Services :=
  match parseKey e.key with
  | none => svcs
  | some (service, container) =>
    if container = "port" then
      updateSvc svcs service (fun s => { s with port := some e.value })
    else
      updateSvc svcs service
        (fun s => { s with backends := s.backends ++ [(container, e.value)] })

/-- `get_services`: fold the entry loop over the listed registry entries,
then drop every service whose `port` is still `None` (the final
`services.pop(svc)` loop). -/
def get_services (entries : List Entry) : Services :=
  (entries.foldl applyEntry []).filter (fun p => p.2.port.isSome)

/-- First binding for a key in the service dictionary. -/
def lookupSvc (sv : String) : Services → Option Svc
  | [] => none
  | (n, s) :: rest => if n = sv then some s else lookupSvc sv rest

/-- The record a service name maps to, the `defaultdict` default when the
name is absent. -/
def svcStateOf (svcs : Services) (sv : String) : Svc :=
  (lookupSvc sv svcs).getD emptySvc

/-- Python dict equality, the comparison behind
`services != current_services`: same number of keys and every binding of
the left dict present with an equal value in the right one. Values (`Svc`)
compare componentwise; the backend lists compare element-wise in order,
as Python list equality does. -/
def snapEq (a b : Services) : Bool :=
  a.length == b.length && a.all (fun p => lookupSvc p.1 b == some p.2)

/-- `restart_haproxy`: runs the reload command and returns
`call(cmd, shell=True) == 0`. Modelled on the exit status of the
subprocess. -/
def restart_haproxy (exit_status : Int) : Bool :=
  exit_status == 0

/-- The branch condition of the poll loop: `if services != current_services`
decides whether this tick renders a config and invokes the reload. -/
def rendersAndReloads (current_services : Services) (entries : List Entry) : Bool :=
  ! snapEq (get_services entries) current_services

/-- One tick of the `while True` loop of `main`, lines 160-175.
`registry` is the outcome of `get_services(client)`'s etcd read: `.error`
when the read raises. `write_ok` is whether `generate_config` completes
without raising; `reload_exit` is the exit status of the reload command.
A `.error` result means an exception escapes the loop body — `main` has no
handler, and at top level only `KeyboardInterrupt` is caught, so the
process exits. A `.ok` result carries the next value of
`current_services`. -/
def tick (current_services : Services) (registry : Except Unit (List Entry))
    (write_ok : Bool) (reload_exit : Int) : Except Unit Services :=
  match registry with
  | .error e => .error e
  | .ok entries =>
    if rendersAndReloads current_services entries then
      if write_ok then
        if restart_haproxy reload_exit then .ok (get_services entries)
        else .ok current_services
      else .error ()
    else .ok current_services

/-- The effect of one entry on the record of one fixed service name,
read off from the branch structure of the entry loop. -/
def stepSvc (sv : String) (s : Svc) (e : Entry) : Svc :=
  match parseKey e.key with
  | none => s
  | some (service, container) =>
    if service = sv then
      if container = "port" then { s with port := some e.value }
      else { s with backends := s.backends ++ [(container, e.value)] }
    else s

/-- The backend pairs a single entry contributes to a fixed service. -/
def backendOf (sv : String) (e : Entry) : List (String × String) :=
  match parseKey e.key with
  | none => []
  | some (service, container) =>
    if service = sv then
      if container = "port" then [] else [(container, e.value)]
    else []

/-- The backend pairs of a service, in the order their entries appear in
the input list. -/
def backendsFor (sv : String) : List Entry → List (String × String)
  | [] => []
  | e :: rest => backendOf sv e ++ backendsFor sv rest

/-- Whether an entry is a `.../port` entry (for any service). -/
def isPortEntry (e : Entry) : Bool :=
  match parseKey e.key with
  | none => false
  | some (_, container) => container == "port"

/-- The last two path segments of a key after dropping its lead character,
last segment first. -/
def lastTwoSegs (key : String) : List (List Char) :=
  ((segsAux (key.toList.drop 1) []).reverse).take 2

theorem segsAux_length (cs : List Char) :
    ∀ acc, (segsAux cs acc).length = countChar '/' cs + 1 := by
  induction cs with
  | nil => intro acc; simp [segsAux, countChar]
  | cons d rest ih =>
    intro acc
    by_cases h : d = '/'
    · simp [segsAux, h, ih, countChar]; omega
    · simp [segsAux, h, ih, countChar]

theorem lookupSvc_updateSvc (svcs : Services) (name sv : String) (f : Svc → Svc) :
    lookupSvc sv (updateSvc svcs name f) =
      if sv = name then some (f (svcStateOf svcs name)) else lookupSvc sv svcs := by
  induction svcs with
  | nil =>
    by_cases h : sv = name
    · simp [updateSvc, lookupSvc, svcStateOf, h]
    · have h2 : ¬name = sv := fun hx => h hx.symm
      simp [updateSvc, lookupSvc, svcStateOf, h, h2]
  | cons p rest ih =>
    obtain ⟨n, s⟩ := p
    by_cases hn : n = name
    · subst hn
      by_cases hs : sv = n
      · subst hs; simp [updateSvc, lookupSvc, svcStateOf]
      · have hs2 : ¬n = sv := fun hx => hs hx.symm
        simp [updateSvc, lookupSvc, svcStateOf, hs, hs2]
    · by_cases hs : sv = n
      · subst hs
        have hn2 := Ne.symm hn
        simp [updateSvc, lookupSvc, svcStateOf, hn, hn2]
      · have hs2 : ¬n = sv := fun hx => hs hx.symm
        simp [updateSvc, lookupSvc, svcStateOf, hn, hs, hs2, ih]

theorem map_fst_updateSvc (svcs : Services) (name : String) (f : Svc → Svc) :
    (updateSvc svcs name f).map Prod.fst =
      if name ∈ svcs.map Prod.fst then svcs.map Prod.fst
      else svcs.map Prod.fst ++ [name] := by
  induction svcs with
  | nil => simp [updateSvc]
  | cons p rest ih =>
    obtain ⟨n, s⟩ := p
    by_cases hn : n = name
    · subst hn; simp [updateSvc]
    · have hn2 : ¬name = n := fun hx => hn hx.symm
      simp [updateSvc, hn, hn2, ih]
      by_cases hmem : name ∈ rest.map Prod.fst <;> simp [hmem, hn2]

theorem nodup_map_fst_updateSvc (svcs : Services) (name : String) (f : Svc → Svc)
    (h : (svcs.map Prod.fst).Nodup) :
    ((updateSvc svcs name f).map Prod.fst).Nodup := by
  rw [map_fst_updateSvc]
  by_cases hmem : name ∈ svcs.map Prod.fst
  · simpa [hmem] using h
  · simp only [hmem, if_false]
    refine List.Nodup.append h (List.nodup_singleton name) ?_
    intro a ha hb
    rw [List.mem_singleton] at hb
    subst hb
    exact hmem ha

theorem nodup_map_fst_applyEntry (svcs : Services) (e : Entry)
    (h : (svcs.map Prod.fst).Nodup) :
    ((applyEntry svcs e).map Prod.fst).Nodup := by
  unfold applyEntry
  cases hp : parseKey e.key with
  | none => exact h
  | some p =>
    obtain ⟨service, container⟩ := p
    by_cases hc : container = "port" <;>
      simp [hc, nodup_map_fst_updateSvc _ _ _ h]

theorem nodup_map_fst_foldl (entries : List Entry) :
    ∀ acc : Services, (acc.map Prod.fst).Nodup →
      ((entries.foldl applyEntry acc).map Prod.fst).Nodup := by
  induction entries with
  | nil => intro acc h; exact h
  | cons e rest ih =>
    intro acc h
    exact ih (applyEntry acc e) (nodup_map_fst_applyEntry acc e h)

theorem svcStateOf_applyEntry (svcs : Services) (e : Entry) (sv : String) :
    svcStateOf (applyEntry svcs e) sv = stepSvc sv (svcStateOf svcs sv) e := by
  unfold applyEntry stepSvc
  cases hp : parseKey e.key with
  | none => rfl
  | some p =>
    obtain ⟨service, container⟩ := p
    by_cases hs : service = sv
    · subst hs
      by_cases hc : container = "port" <;>
        simp [hc, svcStateOf, lookupSvc_updateSvc]
    · have hs2 : ¬sv = service := fun hx => hs hx.symm
      by_cases hc : container = "port" <;>
        simp [hc, hs, hs2, svcStateOf, lookupSvc_updateSvc]

theorem svcStateOf_foldl (entries : List Entry) :
    ∀ (acc : Services) (sv : String),
      svcStateOf (entries.foldl applyEntry acc) sv =
        entries.foldl (stepSvc sv) (svcStateOf acc sv) := by
  induction entries with
  | nil => intro acc sv; rfl
  | cons e rest ih =>
    intro acc sv
    simp [List.foldl_cons, ih, svcStateOf_applyEntry]

theorem port_stepSvc (sv : String) (s : Svc) (e : Entry) :
    (stepSvc sv s e).port =
      if parseKey e.key = some (sv, "port") then some e.value else s.port := by
  unfold stepSvc
  cases hp : parseKey e.key with
  | none => simp [hp]
  | some p =>
    obtain ⟨service, container⟩ := p
    by_cases hs : service = sv
    · subst hs
      by_cases hc : container = "port"
      · subst hc; simp
      · simp [hc, Prod.ext_iff]
    · have hs2 := Ne.symm hs
      by_cases hc : container = "port" <;> simp [hs, hs2, hc, Prod.ext_iff]

theorem backends_stepSvc (sv : String) (s : Svc) (e : Entry) :
    (stepSvc sv s e).backends = s.backends ++ backendOf sv e := by
  unfold stepSvc backendOf
  cases hp : parseKey e.key with
  | none => simp
  | some p =>
    obtain ⟨service, container⟩ := p
    by_cases hs : service = sv <;>
      by_cases hc : container = "port" <;> simp [hs, hc]

theorem port_isSome_foldl (sv : String) (entries : List Entry) :
    ∀ s : Svc,
      ((entries.foldl (stepSvc sv) s).port.isSome = true ↔
        (s.port.isSome = true ∨ ∃ e ∈ entries, parseKey e.key = some (sv, "port"))) := by
  induction entries with
  | nil => intro s; simp
  | cons e rest ih =>
    intro s
    rw [List.foldl_cons, ih]
    by_cases hp : parseKey e.key = some (sv, "port")
    · simp only [port_stepSvc, hp, if_pos]
      constructor
      · intro _; right; exact ⟨e, List.mem_cons_self e rest, hp⟩
      · intro _; left; rfl
    · simp only [port_stepSvc, hp, if_neg, not_false_iff]
      constructor
      · rintro (h | ⟨e2, he2, hpe2⟩)
        · exact Or.inl h
        · exact Or.inr ⟨e2, List.mem_cons_of_mem e he2, hpe2⟩
      · rintro (h | ⟨e2, he2, hpe2⟩)
        · exact Or.inl h
        · rcases List.mem_cons.mp he2 with he | he
          · exact absurd (he ▸ hpe2) hp
          · exact Or.inr ⟨e2, he, hpe2⟩

theorem backends_foldl (sv : String) (entries : List Entry) :
    ∀ s : Svc,
      (entries.foldl (stepSvc sv) s).backends = s.backends ++ backendsFor sv entries := by
  induction entries with
  | nil => intro s; simp [backendsFor]
  | cons e rest ih =>
    intro s
    rw [List.foldl_cons, ih, backends_stepSvc]
    simp [backendsFor]

theorem lookup_isSome_applyEntry (svcs : Services) (e : Entry) (sv : String) :
    ((lookupSvc sv (applyEntry svcs e)).isSome = true ↔
      ((lookupSvc sv svcs).isSome = true ∨ ∃ c, parseKey e.key = some (sv, c))) := by
  unfold applyEntry
  cases hp : parseKey e.key with
  | none => simp
  | some p =>
    obtain ⟨service, container⟩ := p
    by_cases hs : sv = service
    · subst hs
      by_cases hc : container = "port" <;>
        simp [hc, lookupSvc_updateSvc]
    · have hs2 := Ne.symm hs
      by_cases hc : container = "port" <;>
        simp [hc, hs, hs2, lookupSvc_updateSvc, Prod.ext_iff]

theorem lookup_isSome_foldl (entries : List Entry) :
    ∀ (acc : Services) (sv : String),
      ((lookupSvc sv (entries.foldl applyEntry acc)).isSome = true ↔
        ((lookupSvc sv acc).isSome = true ∨
          ∃ e ∈ entries, ∃ c, parseKey e.key = some (sv, c))) := by
  induction entries with
  | nil => intro acc sv; simp
  | cons e rest ih =>
    intro acc sv
    rw [List.foldl_cons, ih, lookup_isSome_applyEntry]
    constructor
    · rintro ((h | hc) | ⟨e2, he2, hc2⟩)
      · exact Or.inl h
      · exact Or.inr ⟨e, List.mem_cons_self e rest, hc⟩
      · exact Or.inr ⟨e2, List.mem_cons_of_mem e he2, hc2⟩
    · rintro (h | ⟨e2, he2, hc2⟩)
      · exact Or.inl (Or.inl h)
      · rcases List.mem_cons.mp he2 with he | he
        · exact Or.inl (Or.inr (he ▸ hc2))
        · exact Or.inr ⟨e2, he, hc2⟩

theorem lookupSvc_eq_none_of_not_mem (sv : String) (l : Services)
    (h : sv ∉ l.map Prod.fst) : lookupSvc sv l = none := by
  induction l with
  | nil => rfl
  | cons p rest ih =>
    obtain ⟨n, s⟩ := p
    simp only [List.map_cons, List.mem_cons] at h
    push_neg at h
    have hn : ¬n = sv := fun hx => h.1 hx.symm
    simp [lookupSvc, hn, ih h.2]

theorem lookupSvc_filter (pred : String × Svc → Bool) (l : Services) (sv : String)
    (h : (l.map Prod.fst).Nodup) :
    lookupSvc sv (l.filter pred) =
      match lookupSvc sv l with
      | some q => if pred (sv, q) then some q else none
      | none => none := by
  induction l with
  | nil => rfl
  | cons p rest ih =>
    obtain ⟨n, s⟩ := p
    simp only [List.map_cons, List.nodup_cons] at h
    by_cases hn : n = sv
    · subst hn
      by_cases hpred : pred (n, s) = true
      · simp [List.filter_cons, hpred, lookupSvc]
      · have hnone : lookupSvc n (rest.filter pred) = none := by
          refine lookupSvc_eq_none_of_not_mem n (rest.filter pred) ?_
          intro hmem
          refine h.1 ?_
          have hsub : ((rest.filter pred).map Prod.fst).Sublist (rest.map Prod.fst) :=
            List.Sublist.map Prod.fst (List.filter_sublist rest)
          exact hsub.mem hmem
        simp [List.filter_cons, hpred, lookupSvc, hnone]
    · have hn2 := fun hx : sv = n => hn hx.symm
      by_cases hpred : pred (n, s) = true <;>
        simp [List.filter_cons, hpred, lookupSvc, hn, ih h.2]

theorem nodup_keys_get_services (entries : List Entry) :
    ((get_services entries).map Prod.fst).Nodup := by
  unfold get_services
  have hraw := nodup_map_fst_foldl entries [] (by simp)
  have hsub :
      (((entries.foldl applyEntry []).filter (fun p => p.2.port.isSome)).map Prod.fst).Sublist
        ((entries.foldl applyEntry []).map Prod.fst) :=
    List.Sublist.map Prod.fst (List.filter_sublist _)
  exact List.Nodup.sublist hsub hraw

theorem lookupSvc_get_services (entries : List Entry) (sv : String) :
    lookupSvc sv (get_services entries) =
      match lookupSvc sv (entries.foldl applyEntry []) with
      | some q => if q.port.isSome then some q else none
      | none => none := by
  unfold get_services
  exact lookupSvc_filter (fun p => p.2.port.isSome) _ sv
    (nodup_map_fst_foldl entries [] (by simp))

theorem svcStateOf_raw (entries : List Entry) (sv : String) :
    svcStateOf (entries.foldl applyEntry []) sv =
      entries.foldl (stepSvc sv) emptySvc := by
  have h := svcStateOf_foldl entries [] sv
  simpa [svcStateOf, lookupSvc] using h

theorem lookupSvc_self (l : Services) (h : (l.map Prod.fst).Nodup) :
    ∀ p ∈ l, lookupSvc p.1 l = some p.2 := by
  induction l with
  | nil => intro p hp; cases hp
  | cons q rest ih =>
    obtain ⟨n, s⟩ := q
    simp only [List.map_cons, List.nodup_cons] at h
    intro p hp
    rcases List.mem_cons.mp hp with he | he
    · subst he; simp [lookupSvc]
    · have hne : ¬n = p.1 := by
        intro hx
        exact h.1 (hx ▸ (List.mem_map_of_mem Prod.fst he))
      simp [lookupSvc, hne, ih h.2 p he]

theorem snapEq_self (l : Services) (h : (l.map Prod.fst).Nodup) :
    snapEq l l = true := by
  unfold snapEq
  simp only [Bool.and_eq_true, beq_iff_eq, List.all_eq_true]
  exact ⟨trivial, fun p hp => by simp [lookupSvc_self l h p hp]⟩

theorem snapEq_nil_right (l : Services) : snapEq l [] = true ↔ l = [] := by
  cases l with
  | nil => simp [snapEq]
  | cons p rest => simp [snapEq]

theorem backendOf_of_isPortEntry (sv : String) (e : Entry)
    (h : isPortEntry e = true) : backendOf sv e = [] := by
  unfold isPortEntry at h
  unfold backendOf
  cases hp : parseKey e.key with
  | none => rfl
  | some p =>
    obtain ⟨service, container⟩ := p
    rw [hp] at h
    simp only [beq_iff_eq] at h
    simp [h]

theorem backends_of_lookup_get_services (entries : List Entry) (sv : String) (svc : Svc)
    (h : lookupSvc sv (get_services entries) = some svc) :
    svc.backends = backendsFor sv entries := by
  have hlk := lookupSvc_get_services entries sv
  cases hraw : lookupSvc sv (entries.foldl applyEntry []) with
  | none => simp only [hraw] at hlk; rw [hlk] at h; cases h
  | some q =>
    simp only [hraw] at hlk
    by_cases hport : q.port.isSome = true
    · rw [if_pos hport] at hlk
      rw [hlk] at h
      have hq : q = svc := Option.some.inj h
      subst hq
      have hstate : svcStateOf (entries.foldl applyEntry []) sv = q := by
        simp [svcStateOf, hraw]
      rw [svcStateOf_raw entries sv] at hstate
      rw [← hstate, backends_foldl sv entries emptySvc]
      simp [emptySvc]
    · rw [if_neg hport] at hlk; rw [hlk] at h; cases h

theorem present_iff_port_entry (entries : List Entry) (sv : String) :
    (lookupSvc sv (get_services entries)).isSome = true ↔
      ∃ e ∈ entries, parseKey e.key = some (sv, "port") := by
  have hlk := lookupSvc_get_services entries sv
  constructor
  · intro hsome
    cases hraw : lookupSvc sv (entries.foldl applyEntry []) with
    | none => simp only [hraw] at hlk; rw [hlk] at hsome; cases hsome
    | some q =>
      simp only [hraw] at hlk
      by_cases hport : q.port.isSome = true
      · have hstate : svcStateOf (entries.foldl applyEntry []) sv = q := by
          simp [svcStateOf, hraw]
        rw [svcStateOf_raw entries sv] at hstate
        have hp2 : ((entries.foldl (stepSvc sv) emptySvc).port.isSome = true) := by
          rw [hstate]; exact hport
        rcases (port_isSome_foldl sv entries emptySvc).mp hp2 with h0 | h
        · simp [emptySvc] at h0
        · exact h
      · rw [if_neg hport] at hlk; rw [hlk] at hsome; cases hsome
  · rintro ⟨e, he, hpe⟩
    cases hraw : lookupSvc sv (entries.foldl applyEntry []) with
    | none =>
      have hraws : (lookupSvc sv (entries.foldl applyEntry [])).isSome = true := by
        rw [lookup_isSome_foldl entries [] sv]
        exact Or.inr ⟨e, he, "port", hpe⟩
      rw [hraw] at hraws; cases hraws
    | some q =>
      have hstate : svcStateOf (entries.foldl applyEntry []) sv = q := by
        simp [svcStateOf, hraw]
      rw [svcStateOf_raw entries sv] at hstate
      have hport : q.port.isSome = true := by
        rw [← hstate]
        exact (port_isSome_foldl sv entries emptySvc).mpr (Or.inr ⟨e, he, hpe⟩)
      simp only [hraw] at hlk
      rw [if_pos hport] at hlk
      rw [hlk]
      rfl

theorem backendsFor_filter_ports (sv : String) (entries : List Entry) :
    backendsFor sv (entries.filter (fun e => ! isPortEntry e)) = backendsFor sv entries := by
  induction entries with
  | nil => rfl
  | cons e rest ih =>
    rw [List.filter_cons]
    by_cases hp : isPortEntry e = true
    · simp only [hp, Bool.not_true, Bool.false_eq_true, if_false]
      rw [ih]
      simp only [backendsFor, backendOf_of_isPortEntry sv e hp, List.nil_append]
    · have hp2 : (!isPortEntry e) = true := by
        cases hx : isPortEntry e with
        | false => rfl
        | true => exact absurd hx hp
      simp only [hp2, if_true]
      simp only [backendsFor, ih]

theorem parseKey_eq_of_lastTwoSegs (k1 k2 : String)
    (h1 : 2 ≤ countChar '/' (k1.toList.drop 1))
    (h2 : 2 ≤ countChar '/' (k2.toList.drop 1))
    (hsame : lastTwoSegs k1 = lastTwoSegs k2) :
    parseKey k1 = parseKey k2 := by
  unfold parseKey
  rw [if_neg (by omega), if_neg (by omega)]
  unfold lastTwoSegs at hsame
  have hl1 : 2 ≤ ((segsAux (k1.toList.drop 1) []).reverse).length := by
    rw [List.length_reverse, segsAux_length]; omega
  have hl2 : 2 ≤ ((segsAux (k2.toList.drop 1) []).reverse).length := by
    rw [List.length_reverse, segsAux_length]; omega
  generalize hr1 : (segsAux (k1.toList.drop 1) []).reverse = r1 at hsame hl1 ⊢
  generalize hr2 : (segsAux (k2.toList.drop 1) []).reverse = r2 at hsame hl2 ⊢
  cases r1 with
  | nil => simp at hl1
  | cons c1 r1t =>
    cases r1t with
    | nil => simp at hl1
    | cons s1 t1 =>
      cases r2 with
      | nil => simp at hl2
      | cons c2 r2t =>
        cases r2t with
        | nil => simp at hl2
        | cons s2 t2 =>
          have hsame2 : ([c1, s1] : List (List Char)) = [c2, s2] := hsame
          have hc : c1 = c2 := by
            have := congrArg (fun l => l.headD []) hsame2
            simpa using this
          have hs : s1 = s2 := by
            have := congrArg (fun l => l.tail.headD []) hsame2
            simpa using this
          rw [hc, hs]

/-! Concrete entry lists used by witnesses and counterexamples. -/

def entriesC2 : List Entry :=
  [⟨"/backends/web/port", "80"⟩, ⟨"/backends/web/c1", "10.0.0.1:9000"⟩,
   ⟨"/backends/web/c2", "10.0.0.2:9000"⟩]

def entriesC2perm : List Entry :=
  [⟨"/backends/web/port", "80"⟩, ⟨"/backends/web/c2", "10.0.0.2:9000"⟩,
   ⟨"/backends/web/c1", "10.0.0.1:9000"⟩]

def entriesC3 : List Entry := [⟨"/backends/extra/web/port", "80"⟩]

def entriesC4 : List Entry := [⟨"/backends/web/port", "80"⟩]

def entriesC5 : List Entry := [⟨"/backends/api/port", "8080"⟩]

def entriesC7 : List Entry :=
  [⟨"/backends/web/port", "80"⟩, ⟨"/backends/web/c1", "10.0.0.1:9000"⟩,
   ⟨"/backends/web/c1", "10.0.0.2:9000"⟩]

def entriesC10 : List Entry :=
  [⟨"/backends/web/c1", "10.0.0.1:9000"⟩, ⟨"/backends/web/port", "80"⟩,
   ⟨"/backends/web/c2", "10.0.0.2:9000"⟩]

/-- Claim C1 (code bug): the claim says every recoverable loop-body failure is
handled inside the tick and the process keeps polling. The code disagrees for
two of the three failure kinds: `get_services` performs the etcd read with no
handler (the source marks it `TODO: handle severed connection`), and
`generate_config` writes the file with no handler, so in either case the
exception escapes `main` — whose only top-level handler catches
`KeyboardInterrupt` — and the process exits. This theorem evaluates the tick
at the two failing inputs: a failing registry read, and a changed topology
whose config write fails; both end the loop with an escaping exception
(`Except.error`), not a continued loop. -/
theorem c1_registry_or_write_failure_exits :
    tick [] (Except.error ()) true 0 = Except.error () ∧
    tick [] (Except.ok entriesC4) false 0 = Except.error () := by
  constructor
  · rfl
  · rfl

/-- Claim C2 counterexample: building from a permutation of the entry list
can yield snapshots the loop comparison reports as different. The two lists
below differ only in the order of the two backend entries of `web`; the
backend lists of the built snapshots are Python lists compared element-wise,
so the comparison that drives the reload reports a change. -/
theorem c2_counterexample :
    entriesC2perm.Perm entriesC2 ∧
    snapEq (get_services entriesC2) (get_services entriesC2perm) = false := by
  constructor
  · exact List.Perm.cons _ (List.Perm.swap _ _ _)
  · decide

/-- Claim C2 as amended: snapshot comparison is not invariant under
permutations of the entry list — the backend lists compare element-wise in
order — but comparing the snapshots of two identical builds (in particular a
snapshot against itself, the reflexive-false property of the change signal)
reports no change, for every entry list. -/
theorem c2_identical_build_reports_no_change (entries : List Entry) :
    snapEq (get_services entries) (get_services entries) = true :=
  snapEq_self _ (nodup_keys_get_services entries)

/-- Claim C3 counterexample: a key with three segments after the watched
root (`/backends/extra/web/port`) is not skipped: the loop only skips keys
with fewer than two slashes after the lead character, and parses all others
by their last two segments, so this key creates service `web` with port 80
and the snapshot is not empty, while the claim says such keys contribute
nothing. -/
theorem c3_counterexample :
    get_services entriesC3 = [("web", ⟨some "80", []⟩)] ∧
    get_services entriesC3 ≠ [] := by
  constructor
  · decide
  · decide

/-- Claim C3 as amended: only keys with fewer than two slashes after their
lead character (too few segments) are skipped without error and contribute
nothing to the snapshot; keys with deeper nesting are processed, using their
last two segments. -/
theorem c3_shallow_key_skipped (svcs : Services) (e : Entry)
    (h : countChar '/' (e.key.toList.drop 1) < 2) :
    applyEntry svcs e = svcs := by
  have hp : parseKey e.key = none := by
    unfold parseKey
    rw [if_pos h]
  simp [applyEntry, hp]

theorem c3_shallow_key_skipped_witness :
    countChar '/' (("/backends/web" : String).toList.drop 1) < 2 ∧
    applyEntry [("api", ⟨some "1", []⟩)] ⟨"/backends/web", "x"⟩ =
      [("api", ⟨some "1", []⟩)] :=
  ⟨by decide,
   c3_shallow_key_skipped [("api", ⟨some "1", []⟩)] ⟨"/backends/web", "x"⟩ (by decide)⟩

/-- Claim C4: when the reload exits non-zero on a tick whose topology differs
from the applied state, the tick leaves `current_services` at its pre-change
value; therefore the next tick, reading an unchanged registry, sees the same
inequality and re-attempts the render and the reload. -/
theorem c4_reload_failure_keeps_state_and_retries (cur : Services)
    (entries : List Entry) (exit_status : Int)
    (hchanged : rendersAndReloads cur entries = true) (hfail : exit_status ≠ 0) :
    tick cur (Except.ok entries) true exit_status = Except.ok cur ∧
    rendersAndReloads cur entries = true := by
  refine ⟨?_, hchanged⟩
  have hr : restart_haproxy exit_status = false := by
    unfold restart_haproxy
    simp only [beq_eq_false_iff_ne, ne_eq]
    exact hfail
  simp [tick, hchanged, hr]

theorem c4_reload_failure_keeps_state_and_retries_witness :
    tick [] (Except.ok entriesC4) true 1 = Except.ok [] ∧
    rendersAndReloads [] entriesC4 = true :=
  c4_reload_failure_keeps_state_and_retries [] entriesC4 1 (by decide) (by decide)

/-- Claim C5: a service appears in the built snapshot exactly when a `port`
entry for it occurs in the entry list; in particular a service with a port
entry and no backend entries is present with an empty backend list, and a
service with backend entries but no port entry is absent. -/
theorem c5_service_present_iff_port_entry (entries : List Entry) (sv : String) :
    ((lookupSvc sv (get_services entries)).isSome = true ↔
      ∃ e ∈ entries, parseKey e.key = some (sv, "port")) ∧
    (∀ svc, lookupSvc sv (get_services entries) = some svc →
      backendsFor sv entries = [] → svc.backends = []) := by
  refine ⟨present_iff_port_entry entries sv, ?_⟩
  intro svc hsvc hempty
  rw [backends_of_lookup_get_services entries sv svc hsvc, hempty]

theorem c5_service_present_iff_port_entry_witness :
    (lookupSvc "api" (get_services entriesC5)).isSome = true ∧
    (⟨some "8080", []⟩ : Svc).backends = ([] : List (String × String)) := by
  constructor
  · exact (c5_service_present_iff_port_entry entriesC5 "api").1.mpr
      ⟨⟨"/backends/api/port", "8080"⟩, by decide, by decide⟩
  · exact (c5_service_present_iff_port_entry entriesC5 "api").2
      ⟨some "8080", []⟩ (by decide) (by decide)

/-- Claim C6 counterexample: the claim says the very first tick always
attempts a render and reload whatever the registry holds. With an empty
registry the built snapshot equals the initial empty `current_services`, the
comparison reports no change, and no render or reload is attempted. -/
theorem c6_counterexample :
    rendersAndReloads [] ([] : List Entry) = false := by decide

/-- Claim C6 as amended: starting from the empty initial `current_services`,
the first tick attempts a render and reload exactly when the snapshot built
from the registry content is nonempty. -/
theorem c6_first_tick_reloads_iff_nonempty (entries : List Entry) :
    rendersAndReloads [] entries = true ↔ ¬ get_services entries = [] := by
  unfold rendersAndReloads
  constructor
  · intro h hnil
    rw [hnil] at h
    exact absurd h (by decide)
  · intro h
    cases hx : snapEq (get_services entries) [] with
    | false => simp [hx]
    | true => exact absurd ((snapEq_nil_right _).mp hx) h

/-- Claim C7 counterexample: two backend entries with the same service and
the same identifier do not overwrite each other; both are appended, so the
snapshot holds two endpoints named `c1` for service `web`, while the claim
says the snapshot contains at most one endpoint per name per service. -/
theorem c7_counterexample :
    ((svcStateOf (get_services entriesC7) "web").backends.map Prod.fst
        = ["c1", "c1"]) ∧
    ¬ ((svcStateOf (get_services entriesC7) "web").backends.map Prod.fst).Nodup := by
  constructor
  · decide
  · decide

/-- Claim C7 as amended: the endpoint collection of a service is a list in
append order, not a set keyed by name: every backend entry appends one
`(name, addr)` pair to the backend list of its service, whether or not an
endpoint with the same name is already present. -/
theorem c7_backend_entry_appends (svcs : Services) (e : Entry) (sv ct : String)
    (hp : parseKey e.key = some (sv, ct)) (hc : ct ≠ "port") :
    (svcStateOf (applyEntry svcs e) sv).backends =
      (svcStateOf svcs sv).backends ++ [(ct, e.value)] := by
  rw [svcStateOf_applyEntry, backends_stepSvc]
  unfold backendOf
  rw [hp]
  simp [hc]

theorem c7_backend_entry_appends_witness :
    (svcStateOf
        (applyEntry [("web", ⟨some "80", [("c1", "a")]⟩)] ⟨"/backends/web/c1", "b"⟩)
        "web").backends = [("c1", "a"), ("c1", "b")] := by
  rw [c7_backend_entry_appends [("web", ⟨some "80", [("c1", "a")]⟩)]
    ⟨"/backends/web/c1", "b"⟩ "web" "c1" (by decide) (by decide)]
  decide

/-- Claim C8: `restart_haproxy` returns the boolean result of
`call(cmd, shell=True) == 0`: `true` exactly when the reload subprocess
exits with status zero, and `false` — not an exception — on every non-zero
exit status. -/
theorem c8_reload_exit_status (exit_status : Int) :
    (restart_haproxy exit_status = true ↔ exit_status = 0) ∧
    (restart_haproxy exit_status = false ↔ exit_status ≠ 0) := by
  unfold restart_haproxy
  constructor
  · exact beq_iff_eq
  · simp only [beq_eq_false_iff_ne, ne_eq]

/-- Claim C9: the builder reads only the last two path segments of a key
(service is second to last, identifier last) and discards all leading
segments: two keys with at least two slashes after their lead character
that agree on their last two segments make identical contributions to the
snapshot when carrying the same value. -/
theorem c9_only_last_two_segments_matter (k1 k2 v : String) (svcs : Services)
    (h1 : 2 ≤ countChar '/' (k1.toList.drop 1))
    (h2 : 2 ≤ countChar '/' (k2.toList.drop 1))
    (hsame : lastTwoSegs k1 = lastTwoSegs k2) :
    applyEntry svcs ⟨k1, v⟩ = applyEntry svcs ⟨k2, v⟩ := by
  unfold applyEntry
  rw [show (Entry.mk k1 v).key = k1 from rfl, show (Entry.mk k2 v).key = k2 from rfl,
    parseKey_eq_of_lastTwoSegs k1 k2 h1 h2 hsame]

theorem c9_only_last_two_segments_matter_witness :
    2 ≤ countChar '/' (("/a/b/web/c1" : String).toList.drop 1) ∧
    applyEntry [] ⟨"/a/b/web/c1", "x"⟩ = applyEntry [] ⟨"/backends/web/c1", "x"⟩ :=
  ⟨by decide,
   c9_only_last_two_segments_matter "/a/b/web/c1" "/backends/web/c1" "x" []
     (by decide) (by decide) (by decide)⟩

/-- Claim C10: within each service present in the snapshot, the backend list
is exactly the backend entries of that service in input order, and removing
the interleaved port entries from the input does not change that list. -/
theorem c10_backends_in_input_order (entries : List Entry) (sv : String) :
    (∀ svc, lookupSvc sv (get_services entries) = some svc →
      svc.backends = backendsFor sv entries) ∧
    backendsFor sv (entries.filter (fun e => ! isPortEntry e)) =
      backendsFor sv entries :=
  ⟨fun svc h => backends_of_lookup_get_services entries sv svc h,
   backendsFor_filter_ports sv entries⟩

theorem c10_backends_in_input_order_witness :
    (⟨some "80", [("c1", "10.0.0.1:9000"), ("c2", "10.0.0.2:9000")]⟩ : Svc).backends =
      backendsFor "web" entriesC10 :=
  (c10_backends_in_input_order entriesC10 "web").1
    ⟨some "80", [("c1", "10.0.0.1:9000"), ("c2", "10.0.0.2:9000")]⟩ (by decide)

/-- Sanity check of the embedding against end-to-end scenario 1 of the
specification: the registry content `/backends/web/port = 80`,
`/backends/web/c1 = 10.0.0.1:9000` builds the snapshot
`{web: {port: 80, backends: [{c1, 10.0.0.1:9000}]}}`. -/
theorem scenario_one_snapshot :
    get_services [⟨"/backends/web/port", "80"⟩, ⟨"/backends/web/c1", "10.0.0.1:9000"⟩] =
      [("web", ⟨some "80", [("c1", "10.0.0.1:9000")]⟩)] := by decide

end DockerDiscover
